import Mathlib

/-!
Verification of the `encache` cache backends (src/cacheimpl.go) against the
specification.  The Go code is shallowly embedded: `reflect.Value` becomes a
pair of a Go type tag and a dynamic payload, `time.Time`/`time.Duration`
become `Int` ticks passed explicitly (operations take the current time `now`
as an extra argument), Go maps become association lists with extensional
find/insert/erase operations, and panics are modelled with an explicit
`GoOut.panicked` outcome.
-/

set_option autoImplicit false

/-- Go type tags for the types that occur as function results and as dynamic
types of JSON-decoded `interface\x7b\x7d` values: `int`, `float64`, `string`,
`bool`, the empty interface, `map[string]interface\x7b\x7d` and
`[]interface\x7b\x7d`. -/
inductive GoTy where
  | tInt
  | tFloat64
  | tString
  | tBool
  | tIface
  | tMapSI
  | tSliceI
deriving DecidableEq, Repr

/-- Dynamic Go values, as produced by `json.Unmarshal` into `interface\x7b\x7d`:
`nil`, `bool`, `float64` (restricted here to integral values, which float64
represents exactly; JSON texts with fractional or exponent parts are outside
this discrete embedding), `string`, `[]interface\x7b\x7d` and
`map[string]interface\x7b\x7d`. -/
inductive GoDyn where
  | dNull
  | dBool (b : Bool)
  | dNum (n : Int)
  | dStr (s : String)
  | dArr (elems : List GoDyn)
  | dMap (fields : List (String × GoDyn))
deriving Repr

/-- A `reflect.Value`: a static Go type together with the dynamic payload it
holds (for a `tIface` slot the payload may be of any dynamic type). -/
structure RVal where
  ty : GoTy
  val : GoDyn
deriving Repr

/-- Go `error` values that arise in this code: the error returned by
`json.Unmarshal` on malformed or wrongly-typed input, and store-level errors
from the redis client (tagged with an abstract code). -/
inductive GoErr where
  | jsonError
  | storeError (code : Nat)
deriving DecidableEq, Repr

/-- Outcome of running a piece of Go code: a normal return value or a panic
with a message. -/
inductive GoOut (α : Type) where
  | ret (a : α)
  | panicked (msg : String)
deriving Repr

/-- The return-signature `reflect.Type` of the cached function: `outs` lists
the output types, so `fType.Out(i)` is `outs[i]` and `NumOut` is the
length. -/
structure FnTy where
  outs : List GoTy
deriving Repr

/-- Lookup in a Go map modelled as an association list: the value of the
first entry with the given key. -/
def assocFind {α : Type} (l : List (String × α)) (k : String) : Option α :=
  match l with
  | [] => none
  | (k', v) :: rest => if k' = k then some v else assocFind rest k

/-- Go `delete(m, k)`: remove every entry with key `k`. -/
def assocErase {α : Type} (l : List (String × α)) (k : String) : List (String × α) :=
  l.filter (fun p => decide (p.1 ≠ k))

/-- Go `m[k] = v`: the updated table maps `k` to `v` and every other key to
its previous value. -/
def assocInsert {α : Type} (l : List (String × α)) (k : String) (v : α) : List (String × α) :=
  assocErase l k ++ [(k, v)]

theorem assocFind_append {α : Type} (l₁ l₂ : List (String × α)) (k : String) :
    assocFind (l₁ ++ l₂) k =
      match assocFind l₁ k with
      | some v => some v
      | none => assocFind l₂ k := by
  induction l₁ with
  | nil => rfl
  | cons p rest ih =>
    by_cases h : p.1 = k
    · simp [assocFind, h]
    · simp [assocFind, h, ih]

theorem assocFind_erase_self {α : Type} (l : List (String × α)) (k : String) :
    assocFind (assocErase l k) k = none := by
  induction l with
  | nil => rfl
  | cons p rest ih =>
    by_cases h : p.1 = k
    · simp [assocErase, List.filter, h] at ih ⊢
      exact ih
    · simp [assocErase, List.filter, h] at ih ⊢
      simp [assocFind, h, ih]

theorem assocFind_erase_ne {α : Type} (l : List (String × α)) (k k' : String)
    (hne : k ≠ k') : assocFind (assocErase l k) k' = assocFind l k' := by
  induction l with
  | nil => rfl
  | cons p rest ih =>
    by_cases h : p.1 = k
    · have h2 : p.1 ≠ k' := by
        rw [h]; exact hne
      simp [assocErase, List.filter, h] at ih ⊢
      rw [ih]
      simp [assocFind, h2]
    · simp [assocErase, List.filter, h] at ih ⊢
      by_cases h2 : p.1 = k'
      · simp [assocFind, h2]
      · simp [assocFind, h2, ih]

theorem assocFind_insert_self {α : Type} (l : List (String × α)) (k : String) (v : α) :
    assocFind (assocInsert l k v) k = some v := by
  unfold assocInsert
  rw [assocFind_append, assocFind_erase_self]
  simp [assocFind]

theorem assocFind_insert_ne {α : Type} (l : List (String × α)) (k k' : String) (v : α)
    (hne : k ≠ k') : assocFind (assocInsert l k v) k' = assocFind l k' := by
  unfold assocInsert
  rw [assocFind_append, assocFind_erase_ne l k k' hne]
  cases h : assocFind l k' with
  | some w => rfl
  | none => simp [assocFind, hne]

/-- Insertion of a string into an already sorted list (ascending). -/
def sortedInsertStr (s : String) (l : List String) : List String :=
  match l with
  | [] => [s]
  | x :: rest => if s ≤ x then s :: x :: rest else x :: sortedInsertStr s rest

/-- Insertion sort on strings, used to model `fmt` printing map keys in
sorted order. -/
def sortStrings (l : List String) : List String :=
  match l with
  | [] => []
  | x :: rest => sortedInsertStr x (sortStrings rest)

mutual

/-- The text `fmt.Sprintf` produces with verb `%v` for a dynamic Go value:
integers and integral floats in decimal, strings verbatim, booleans as
`true`/`false`, `nil` as `<nil>`, slices space-separated in brackets, maps as
`map[k:v ...]` with keys in sorted order. -/
def goFmt : GoDyn → String
  | .dNull => "<nil>"
  | .dBool b => if b then "true" else "false"
  | .dNum n => toString n
  | .dStr s => s
  | .dArr elems => "[" ++ String.intercalate " " (goFmtList elems) ++ "]"
  | .dMap fields => "map[" ++ String.intercalate " " (sortStrings (goFmtFields fields)) ++ "]"

/-- Renders each element of a slice with `%v`. -/
def goFmtList : List GoDyn → List String
  | [] => []
  | d :: rest => goFmt d :: goFmtList rest

/-- Renders each map entry as `key:value`. -/
def goFmtFields : List (String × GoDyn) → List String
  | [] => []
  | (k, v) :: rest => (k ++ ":" ++ goFmt v) :: goFmtFields rest

end

/-- The key-derivation function `CacheKeyImpl.Key` (src/cacheimpl.go lines
202-208): starts from the function name and appends
`fmt.Sprintf("%v", arg.Interface())` for each argument in order, with no
separators.  `arg.Interface()` unwraps the `reflect.Value` to its dynamic
payload, so only the payload is rendered. -/
def CacheKeyImpl.Key (fName : String) (args : List RVal) : String :=
  args.foldl (fun key arg => key ++ goFmt arg.val) fName

/-- A cache entry of the Local Map Backend (src/cacheimpl.go lines 18-21):
the stored result values and the absolute expiry instant. -/
structure CacheEntry where
  value : List RVal
  expiryTime : Int
deriving Repr

/-- The Local Map Backend's state (src/cacheimpl.go lines 14-16): a Go map
from string keys to cache entries. -/
structure MapCacheImpl where
  cache : List (String × CacheEntry)
deriving Repr

/-- `MapCacheImpl.Get` (src/cacheimpl.go lines 45-50): if the key is present
and its expiry time is strictly after the current time, return the stored
value with `found=true`; otherwise `nil, false, nil`.  The state is returned
unchanged (the Go body only reads `cacheImpl.cache`).  The ignored second Go
parameter (the `reflect.Type`) is omitted. -/
def MapCacheImpl.Get (cacheImpl : MapCacheImpl) (key : String) (now : Int) :
    MapCacheImpl × (Option (List RVal) × Bool × Option GoErr) :=
  match assocFind cacheImpl.cache key with
  | some res => if now < res.expiryTime then (cacheImpl, (some res.value, true, none))
                else (cacheImpl, (none, false, none))
  | none => (cacheImpl, (none, false, none))

/-- `MapCacheImpl.Set` (src/cacheimpl.go lines 52-58): unconditionally store
the entry with expiry time `now + expiry`; never errors. -/
def MapCacheImpl.Set (cacheImpl : MapCacheImpl) (key : String) (value : List RVal)
    (expiry : Int) (now : Int) : MapCacheImpl × Option GoErr :=
  (⟨assocInsert cacheImpl.cache key ⟨value, now + expiry⟩⟩, none)

/-- `MapCacheImpl.Serialize` (src/cacheimpl.go lines 61-63): a stub that
returns the empty string and no error. -/
def MapCacheImpl.Serialize (_ : List RVal) : String × Option GoErr :=
  ("", none)

/-- `MapCacheImpl.Deserialize` (src/cacheimpl.go lines 66-68): a stub that
returns a nil value slice and no error. -/
def MapCacheImpl.Deserialize (_ : String) (_ : FnTy) :
    Option (List RVal) × Option GoErr :=
  (none, none)

/-- Modelled from the spec: `MuLockImpl` lives in a repository file that is
not under src/.  Per section 4.2 the lock is freshly allocated inside
`Expire` and its acquire/release have no legitimate failure path in
single-process use, so in this sequential embedding `lock` always succeeds
and returns no error. -/
def MuLockImpl.lock : Option GoErr := none

/-- Modelled from the spec: release of the fresh `MuLockImpl`; like `lock`
it never fails (section 4.2 failure semantics). -/
def MuLockImpl.unlock : Option GoErr := none

/-- `MapCacheImpl.Expire` (src/cacheimpl.go lines 71-100): takes the (fresh,
never-failing) lock, then: if the key is present and `expiry <= 0`, delete
it; if present and `expiry > 0`, re-store the same value via `Set` (new
expiry `now + expiry`); if absent, do nothing.  Always returns no error. -/
def MapCacheImpl.Expire (cacheImpl : MapCacheImpl) (key : String) (expiry : Int)
    (now : Int) : MapCacheImpl × Option GoErr :=
  match assocFind cacheImpl.cache key with
  | some cacheEntry =>
      if expiry ≤ 0 then (⟨assocErase cacheImpl.cache key⟩, none)
      else MapCacheImpl.Set cacheImpl key cacheEntry.value expiry now
  | none => (cacheImpl, none)

/-- Whitespace characters that JSON allows between tokens. -/
def isWsChar (c : Char) : Bool :=
  c = ' ' || c = '\t' || c = '\n' || c = '\r'

/-- Skips leading JSON whitespace. -/
def skipWs (l : List Char) : List Char :=
  l.dropWhile isWsChar

/-- Value of a hexadecimal digit, computed on the code point: 48-57 are the
decimal digits, 97-102 the lowercase letters, 65-70 the uppercase ones. -/
def hexVal (c : Char) : Option Nat :=
  let n := c.toNat
  if 48 ≤ n && n ≤ 57 then some (n - 48)
  else if 97 ≤ n && n ≤ 102 then some (n - 87)
  else if 65 ≤ n && n ≤ 70 then some (n - 55)
  else none

/-- Single-character JSON string escapes (backspace is code point 8, form
feed is 12). -/
def escChar : Char → Option Char
  | 'n' => some '\n'
  | 't' => some '\t'
  | 'r' => some '\r'
  | '"' => some '"'
  | '/' => some '/'
  | '\\' => some '\\'
  | 'b' => some '\x08'
  | 'f' => some '\x0c'
  | _ => none

/-- Parses the body of a JSON string (the opening quote already consumed),
returning the decoded characters and the remaining input.  Unescaped control
characters are rejected; a `\u` escape denoting an invalid scalar value
decodes to U+FFFD as in Go's decoder (surrogate-pair combining is not
modelled). -/
def parseStrChars : List Char → Option (List Char × List Char)
  | [] => none
  | c :: rest =>
      if c = '"' then some ([], rest)
      else if c = '\\' then
        match rest with
        | [] => none
        | e :: t =>
            if e = 'u' then
              match t with
              | h1 :: h2 :: h3 :: h4 :: t2 =>
                  match hexVal h1, hexVal h2, hexVal h3, hexVal h4 with
                  | some a, some b, some c2, some d =>
                      let n := a * 4096 + b * 256 + c2 * 16 + d
                      let ch := if Nat.isValidChar n then Char.ofNat n else '�'
                      match parseStrChars t2 with
                      | some (cs, r) => some (ch :: cs, r)
                      | none => none
                  | _, _, _, _ => none
              | _ => none
            else
              match escChar e with
              | some ch =>
                  match parseStrChars t with
                  | some (cs, r) => some (ch :: cs, r)
                  | none => none
              | none => none
      else if c.toNat < 32 then none
      else
        match parseStrChars rest with
        | some (cs, r) => some (c :: cs, r)
        | none => none

/-- Accumulates decimal digits into a natural number. -/
def digitsToNat (acc : Nat) : List Char → Nat
  | [] => acc
  | c :: rest => digitsToNat (acc * 10 + (c.toNat - 48)) rest

/-- Parses an unsigned JSON integer literal: one or more digits, no leading
zero, and (model restriction) no fractional or exponent part — non-integral
float64 values are outside this discrete embedding. -/
def parseUIntLit (input : List Char) : Option (Nat × List Char) :=
  let ds := input.takeWhile (fun c => c.isDigit)
  let rest := input.dropWhile (fun c => c.isDigit)
  match ds with
  | [] => none
  | d :: ds2 =>
      if d = '0' && !ds2.isEmpty then none
      else
        match rest with
        | c :: _ => if c = '.' || c = 'e' || c = 'E' then none
                    else some (digitsToNat 0 ds, rest)
        | [] => some (digitsToNat 0 ds, rest)

/-- Parses a JSON integer literal with optional leading minus sign. -/
def parseIntLit (input : List Char) : Option (Int × List Char) :=
  match input with
  | '-' :: rest =>
      match parseUIntLit rest with
      | some (n, r) => some (-(n : Int), r)
      | none => none
  | _ =>
      match parseUIntLit input with
      | some (n, r) => some ((n : Int), r)
      | none => none

/-- The character `\x7b`. -/
def lbraceChar : Char := Char.ofNat 123

/-- The character `\x7d`. -/
def rbraceChar : Char := Char.ofNat 125

/-- Consumes an expected literal character sequence from the input. -/
def dropLit : List Char → List Char → Option (List Char)
  | [], input => some input
  | e :: es, c :: cs => if c = e then dropLit es cs else none
  | _ :: _, [] => none

mutual

/-- Fuel-indexed recursive-descent parser for one JSON value, modelling the
grammar accepted by Go's `encoding/json` decoder (numbers restricted to
integer literals).  Returns the decoded dynamic value and the unconsumed
input; the fuel only bounds recursion depth and is always sufficient for the
fuel budget `jsonUnmarshalArr` supplies. -/
def parseJsonVal : Nat → List Char → Option (GoDyn × List Char)
  | 0, _ => none
  | Nat.succ fuel, input =>
      match skipWs input with
      | [] => none
      | c :: rest =>
          if c = 'n' then do
            let r ← dropLit ['u', 'l', 'l'] rest
            pure (GoDyn.dNull, r)
          else if c = 't' then do
            let r ← dropLit ['r', 'u', 'e'] rest
            pure (GoDyn.dBool true, r)
          else if c = 'f' then do
            let r ← dropLit ['a', 'l', 's', 'e'] rest
            pure (GoDyn.dBool false, r)
          else if c = '"' then do
            let (cs, r) ← parseStrChars rest
            pure (GoDyn.dStr (String.mk cs), r)
          else if c = '[' then
            match skipWs rest with
            | c2 :: r =>
                if c2 = ']' then pure (GoDyn.dArr [], r)
                else do
                  let (elems, r2) ← parseArrItems fuel (c2 :: r)
                  pure (GoDyn.dArr elems, r2)
            | [] => none
          else if c = lbraceChar then
            match skipWs rest with
            | c2 :: r =>
                if c2 = rbraceChar then pure (GoDyn.dMap [], r)
                else do
                  let (fields, r2) ← parseObjItems fuel (c2 :: r)
                  pure (GoDyn.dMap fields, r2)
            | [] => none
          else if c = '-' || c.isDigit then do
            let (n, r) ← parseIntLit (c :: rest)
            pure (GoDyn.dNum n, r)
          else none

/-- Parses the comma-separated items of a non-empty JSON array up to and
including the closing bracket. -/
def parseArrItems : Nat → List Char → Option (List GoDyn × List Char)
  | 0, _ => none
  | Nat.succ fuel, input => do
      let (v, r) ← parseJsonVal fuel input
      match skipWs r with
      | c :: r2 =>
          if c = ',' then do
            let (elems, r3) ← parseArrItems fuel r2
            pure (v :: elems, r3)
          else if c = ']' then pure ([v], r2)
          else none
      | [] => none

/-- Parses the comma-separated fields of a non-empty JSON object up to and
including the closing brace. -/
def parseObjItems : Nat → List Char → Option (List (String × GoDyn) × List Char)
  | 0, _ => none
  | Nat.succ fuel, input =>
      match skipWs input with
      | c0 :: rest =>
          if c0 = '"' then do
            let (cs, r) ← parseStrChars rest
            match skipWs r with
            | c1 :: r2 =>
                if c1 = ':' then do
                  let (v, r3) ← parseJsonVal fuel r2
                  match skipWs r3 with
                  | c2 :: r4 =>
                      if c2 = ',' then do
                        let (fields, r5) ← parseObjItems fuel r4
                        pure ((String.mk cs, v) :: fields, r5)
                      else if c2 = rbraceChar then pure ([(String.mk cs, v)], r4)
                      else none
                  | [] => none
                else none
            | [] => none
          else none
      | [] => none

end

/-- Models `json.Unmarshal([]byte(s), &results)` with `results` of type
`[]interface\x7b\x7d`: the whole input must be one JSON value followed only
by whitespace; a top-level `null` leaves the slice nil (length 0), a
top-level array yields its elements, and any other top-level value is a
type error.  `none` stands for a non-nil Go error (syntax or type). -/
def jsonUnmarshalArr (s : String) : Option (List GoDyn) := do
  let (v, rest) ← parseJsonVal (s.length + 2) s.data
  if (skipWs rest).isEmpty then
    match v with
    | GoDyn.dNull => pure []
    | GoDyn.dArr elems => pure elems
    | _ => none
  else none

/-- Dynamic type of a JSON-decoded `interface\x7b\x7d` value, as seen by
`reflect.ValueOf`: `none` for `nil` (an invalid `reflect.Value`). -/
def jsonDynTy : GoDyn → Option GoTy
  | .dNull => none
  | .dBool _ => some .tBool
  | .dNum _ => some .tFloat64
  | .dStr _ => some .tString
  | .dArr _ => some .tSliceI
  | .dMap _ => some .tMapSI

/-- Panic message of `reflect.Value.Set` applied to an invalid (zero)
argument value. -/
def reflectZeroSetPanic : String := "reflect: Set using zero Value argument"

/-- Panic message of `reflect.Value.Set` on a dynamic type that is not
assignable to the destination type. -/
def reflectSetTypePanic : String := "reflect.Set: value is not assignable to destination type"

/-- Panic message of `reflect.Type.Out` with an index at or beyond
`NumOut`. -/
def reflectOutRangePanic : String := "reflect: Out index out of range"

/-- Models `res[i] = reflect.New(t).Elem(); res[i].Set(reflect.ValueOf(d))`:
panics if `d` is `nil` (invalid `reflect.Value`) or if `d`'s dynamic type is
not assignable to `t`; assignability holds when `t` is the empty interface
or exactly the dynamic type. -/
def reflectSet (t : GoTy) (d : GoDyn) : GoOut RVal :=
  match jsonDynTy d with
  | none => .panicked reflectZeroSetPanic
  | some dt => if t = .tIface || t = dt then .ret ⟨t, d⟩ else .panicked reflectSetTypePanic

/-- The loop of `RedisCacheImpl.Deserialize` (src/cacheimpl.go lines
144-148): for each decoded element in order, fetch `fType.Out(i)` — a panic
once `i` reaches `NumOut` — and `Set` the element into a fresh zero value
of that type.  Decoded sequences shorter than `outs` simply stop early. -/
def deserElems (outs : List GoTy) (results : List GoDyn) : GoOut (List RVal) :=
  match results, outs with
  | [], _ => .ret []
  | _ :: _, [] => .panicked reflectOutRangePanic
  | d :: ds, t :: ts =>
      match reflectSet t d with
      | .panicked m => .panicked m
      | .ret v =>
          match deserElems ts ds with
          | .panicked m => .panicked m
          | .ret vs => .ret (v :: vs)

/-- `RedisCacheImpl.Deserialize` (src/cacheimpl.go lines 137-150):
`json.Unmarshal` the text into `[]interface\x7b\x7d`, returning the error on
failure; otherwise build the result slice element by element as in
`deserElems`. -/
def RedisCacheImpl.Deserialize (serializedResult : String) (fType : FnTy) :
    GoOut (Option (List RVal) × Option GoErr) :=
  match jsonUnmarshalArr serializedResult with
  | none => .ret (none, some .jsonError)
  | some results =>
      match deserElems fType.outs results with
      | .panicked m => .panicked m
      | .ret res => .ret (some res, none)

/-- The text `json.Marshal` produces for a `[]reflect.Value`:
`reflect.Value` is a struct with no exported fields and no custom marshaller,
so every element marshals to the empty JSON object `\x7b\x7d` regardless of
the value it wraps, and marshalling never fails.  (A nil slice would marshal
to `null`; slices here are plain lists.) -/
def jsonMarshalReflectValues (res : List RVal) : String :=
  "[" ++ String.intercalate "," (res.map (fun _ => "\x7b\x7d")) ++ "]"

/-- `RedisCacheImpl.Serialize` (src/cacheimpl.go lines 129-135):
`json.Marshal` the `[]reflect.Value` and return the text; the error branch
is dead because marshalling a slice of plain structs cannot fail. -/
def RedisCacheImpl.Serialize (res : List RVal) : String × Option GoErr :=
  (jsonMarshalReflectValues res, none)

/-- One entry of the external redis store: the stored text and an optional
absolute expiry instant (`none` = no expiry, the key lives forever). -/
structure RedisEntry where
  val : String
  expiresAt : Option Int
deriving Repr

/-- The external redis store's state: a table from keys to entries. -/
structure RedisState where
  store : List (String × RedisEntry)
deriving Repr

/-- A live lookup in the redis store: the stored text if the key is present
and not expired. -/
def redisLookup (st : RedisState) (key : String) (now : Int) : Option String :=
  match assocFind st.store key with
  | some e =>
      match e.expiresAt with
      | none => some e.val
      | some t => if now < t then some e.val else none
  | none => none

/-- Result of `client.Get(ctx, key).Result()`: the stored text, the
`redis.Nil` sentinel for an absent key, or any other store-level error. -/
inductive RedisReply where
  | ok (s : String)
  | nilReply
  | fail (e : GoErr)
deriving Repr

/-- The reply of a healthy redis server to `GET key`: the value, or
`redis.Nil` when the key is absent or expired. -/
def redisClientGet (st : RedisState) (key : String) (now : Int) : RedisReply :=
  match redisLookup st key now with
  | some v => .ok v
  | none => .nilReply

/-- The go-redis `redis.KeepTTL` sentinel (-1). -/
def redisKeepTTL : Int := -1

/-- Models go-redis v9 `client.Set(ctx, key, val, expiration)`: a positive
expiration issues `SET` with `EX`/`PX` (expiry `now + expiration`);
`expiration = redis.KeepTTL` issues `SET ... KEEPTTL` (previous expiry kept,
none for a fresh key); any other non-positive expiration issues a plain
`SET`, which stores the key with NO expiry. -/
def redisClientSet (st : RedisState) (key : String) (val : String)
    (expiration : Int) (now : Int) : RedisState :=
  if 0 < expiration then ⟨assocInsert st.store key ⟨val, some (now + expiration)⟩⟩
  else if expiration = redisKeepTTL then
    match assocFind st.store key with
    | some e => ⟨assocInsert st.store key ⟨val, e.expiresAt⟩⟩
    | none => ⟨assocInsert st.store key ⟨val, none⟩⟩
  else ⟨assocInsert st.store key ⟨val, none⟩⟩

/-- Models `client.Expire(ctx, key, expiration)` against a healthy server:
`EXPIRE` with a non-positive timeout deletes the key, a positive one sets
expiry `now + expiration`; on an absent key it reports false and changes
nothing. -/
def redisClientExpire (st : RedisState) (key : String) (expiration : Int)
    (now : Int) : RedisState × Bool :=
  match assocFind st.store key with
  | none => (st, false)
  | some e =>
      if expiration ≤ 0 then (⟨assocErase st.store key⟩, true)
      else (⟨assocInsert st.store key ⟨e.val, some (now + expiration)⟩⟩, true)

/-- `RedisCacheImpl.Get` (src/cacheimpl.go lines 152-168) as a function of
the client's reply: a non-`redis.Nil` error is returned with `found=false`;
`redis.Nil` maps to `nil, false, nil`; a retrieved text is deserialized,
returning the deserialization error with `found=false` on failure and the
decoded values with `found=true` otherwise (a panic inside `Deserialize`
propagates). -/
def RedisCacheImpl.Get (reply : RedisReply) (fType : FnTy) :
    GoOut (Option (List RVal) × Bool × Option GoErr) :=
  match reply with
  | .fail e => .ret (none, false, some e)
  | .nilReply => .ret (none, false, none)
  | .ok cachedResult =>
      match RedisCacheImpl.Deserialize cachedResult fType with
      | .panicked m => .panicked m
      | .ret (_, some e) => .ret (none, false, some e)
      | .ret (rv, none) => .ret (rv, true, none)

/-- `RedisCacheImpl.Get` run against the modelled store state: the client
reply is whatever a healthy server answers for the key at this instant. -/
def RedisCacheImpl.GetS (st : RedisState) (key : String) (now : Int) (fType : FnTy) :
    GoOut (Option (List RVal) × Bool × Option GoErr) :=
  RedisCacheImpl.Get (redisClientGet st key now) fType

/-- `RedisCacheImpl.Set` (src/cacheimpl.go lines 170-184) against the
modelled store: serialize (which cannot fail here) and issue the client
`Set`; a healthy server returns no error. -/
def RedisCacheImpl.Set (st : RedisState) (key : String) (value : List RVal)
    (expiry : Int) (now : Int) : RedisState × Option GoErr :=
  let serializedResult := (RedisCacheImpl.Serialize value).1
  (redisClientSet st key serializedResult expiry now, none)

/-- `RedisCacheImpl.Expire` (src/cacheimpl.go lines 189-194) against the
modelled store: delegate to the client `Expire`; a healthy server returns
no error. -/
def RedisCacheImpl.Expire (st : RedisState) (key : String) (expiry : Int)
    (now : Int) : RedisState × Option GoErr :=
  ((redisClientExpire st key expiry now).1, none)

/-- Concatenation of a list of strings in order, with no separators. -/
def concatStrs : List String → String
  | [] => ""
  | s :: rest => s ++ concatStrs rest

theorem foldl_append_concatStrs (f : RVal → String) (init : String) (l : List RVal) :
    l.foldl (fun key arg => key ++ f arg) init = init ++ concatStrs (l.map f) := by
  induction l generalizing init with
  | nil => simp [concatStrs]
  | cons a rest ih => simp [concatStrs, ih, String.append_assoc]

/-- C2: on the Local Map Backend, `Get` returns the stored value with
`found=true` exactly when the key is present and its expiry time is strictly
after the current time; in every other case it returns `found=false`, the
returned error is always nil, and a key absent from the table (in particular
one never written) yields `nil, false, nil`. -/
theorem claim_C2_map_get_semantics (c : MapCacheImpl) (k : String) (now : Int) :
    ((c.Get k now).2.2.2 = none) ∧
    ((c.Get k now).2.2.1 = true ↔
      ∃ e, assocFind c.cache k = some e ∧ now < e.expiryTime) ∧
    (∀ e, assocFind c.cache k = some e → now < e.expiryTime →
      (c.Get k now).2 = (some e.value, true, none)) ∧
    (∀ e, assocFind c.cache k = some e → ¬ now < e.expiryTime →
      (c.Get k now).2 = (none, false, none)) ∧
    (assocFind c.cache k = none → (c.Get k now).2 = (none, false, none)) := by
  cases h : assocFind c.cache k with
  | none =>
    have hGet : c.Get k now = (c, (none, false, none)) := by
      simp [MapCacheImpl.Get, h]
    rw [hGet]
    refine ⟨rfl, ?_, ?_, ?_, fun _ => rfl⟩
    · constructor
      · intro hfalse
        cases hfalse
      · rintro ⟨e, he, _⟩
        cases he
    · intro e he
      cases he
    · intro e he
      cases he
  | some e =>
    by_cases ht : now < e.expiryTime
    · have hGet : c.Get k now = (c, (some e.value, true, none)) := by
        simp [MapCacheImpl.Get, h, ht]
      rw [hGet]
      refine ⟨rfl, ⟨fun _ => ⟨e, rfl, ht⟩, fun _ => rfl⟩, ?_, ?_, fun hn => by cases hn⟩
      · intro e' he' _
        cases he'
        rfl
      · intro e' he' hnot
        cases he'
        exact absurd ht hnot
    · have hGet : c.Get k now = (c, (none, false, none)) := by
        simp [MapCacheImpl.Get, h, ht]
      rw [hGet]
      refine ⟨rfl, ?_, ?_, ?_, fun _ => rfl⟩
      · constructor
        · intro hfalse
          cases hfalse
        · rintro ⟨e', he', ht'⟩
          cases he'
          exact absurd ht' ht
      · intro e' he' ht'
        cases he'
        exact absurd ht' ht
      · intro e' he' _
        rfl
/-- Witness for C2 at concrete inputs: a present, unexpired entry is
returned, and a key never written yields `nil, false, nil`. -/
theorem claim_C2_map_get_semantics_witness :
    (MapCacheImpl.Get ⟨[("k", ⟨[⟨GoTy.tInt, GoDyn.dNum 7⟩], 5⟩)]⟩ "k" 1).2 =
      (some [⟨GoTy.tInt, GoDyn.dNum 7⟩], true, none) ∧
    (MapCacheImpl.Get ⟨[]⟩ "j" 1).2 = (none, false, none) :=
  ⟨(claim_C2_map_get_semantics ⟨[("k", ⟨[⟨GoTy.tInt, GoDyn.dNum 7⟩], 5⟩)]⟩ "k" 1).2.2.1
      ⟨[⟨GoTy.tInt, GoDyn.dNum 7⟩], 5⟩ rfl (by decide),
   (claim_C2_map_get_semantics ⟨[]⟩ "j" 1).2.2.2.2 rfl⟩

/-- C9: on the Local Map Backend, `Get` leaves the cache table completely
unchanged — in particular a stale but present entry is not removed by a
read. -/
theorem claim_C9_map_get_frame (c : MapCacheImpl) (k : String) (now : Int) :
    (c.Get k now).1 = c := by
  cases h : assocFind c.cache k with
  | none => simp [MapCacheImpl.Get, h]
  | some e =>
    by_cases ht : now < e.expiryTime
    · simp [MapCacheImpl.Get, h, ht]
    · simp [MapCacheImpl.Get, h, ht]

/-- C10: both codec methods of the Local Map Backend are constant stubs:
`Serialize` always returns the empty string with no error, `Deserialize`
always returns a nil value slice with no error. -/
theorem claim_C10_map_codec_stubs (v : List RVal) (s : String) (ft : FnTy) :
    MapCacheImpl.Serialize v = ("", none) ∧
    MapCacheImpl.Deserialize s ft = (none, none) :=
  ⟨rfl, rfl⟩

/-- C5: on the Local Map Backend, `Expire(key, ttl)` is a successful no-op
when the key is absent; deletes the key when present and `ttl <= 0`; and
when present and `ttl > 0` re-stores the same value with expiry `now + ttl`,
leaving every other key untouched.  It never returns an error. -/
theorem claim_C5_map_expire_semantics (c : MapCacheImpl) (k : String) (ttl now : Int) :
    (assocFind c.cache k = none → c.Expire k ttl now = (c, none)) ∧
    (∀ e, assocFind c.cache k = some e → ttl ≤ 0 →
      (c.Expire k ttl now).2 = none ∧
      assocFind (c.Expire k ttl now).1.cache k = none) ∧
    (∀ e, assocFind c.cache k = some e → 0 < ttl →
      (c.Expire k ttl now).2 = none ∧
      assocFind (c.Expire k ttl now).1.cache k = some ⟨e.value, now + ttl⟩ ∧
      (∀ k', k ≠ k' →
        assocFind (c.Expire k ttl now).1.cache k' = assocFind c.cache k')) := by
  refine ⟨?_, ?_, ?_⟩
  · intro hn
    simp [MapCacheImpl.Expire, hn]
  · intro e he httl
    have hE : c.Expire k ttl now = (⟨assocErase c.cache k⟩, none) := by
      simp [MapCacheImpl.Expire, he, httl]
    rw [hE]
    exact ⟨rfl, assocFind_erase_self c.cache k⟩
  · intro e he httl
    have hnle : ¬ ttl ≤ 0 := not_le.mpr httl
    have hE : c.Expire k ttl now =
        (⟨assocInsert c.cache k ⟨e.value, now + ttl⟩⟩, none) := by
      simp [MapCacheImpl.Expire, he, hnle, MapCacheImpl.Set]
    rw [hE]
    exact ⟨rfl, assocFind_insert_self c.cache k ⟨e.value, now + ttl⟩,
      fun k' hk' => assocFind_insert_ne c.cache k k' ⟨e.value, now + ttl⟩ hk'⟩

/-- Witness for C5 at concrete inputs: deletion at `ttl = 0`, refresh at
`ttl = 9`, and the no-op on an absent key. -/
theorem claim_C5_map_expire_semantics_witness :
    ((MapCacheImpl.Expire ⟨[("k", ⟨[], 5⟩)]⟩ "k" 0 3).2 = none ∧
      assocFind (MapCacheImpl.Expire ⟨[("k", ⟨[], 5⟩)]⟩ "k" 0 3).1.cache "k" = none) ∧
    ((MapCacheImpl.Expire ⟨[("k", ⟨[], 5⟩)]⟩ "k" 9 3).2 = none ∧
      assocFind (MapCacheImpl.Expire ⟨[("k", ⟨[], 5⟩)]⟩ "k" 9 3).1.cache "k" =
        some ⟨[], 12⟩ ∧
      (∀ k', "k" ≠ k' →
        assocFind (MapCacheImpl.Expire ⟨[("k", ⟨[], 5⟩)]⟩ "k" 9 3).1.cache k' =
          assocFind [("k", (⟨[], 5⟩ : CacheEntry))] k')) ∧
    MapCacheImpl.Expire ⟨[]⟩ "j" 0 3 = (⟨[]⟩, none) :=
  ⟨(claim_C5_map_expire_semantics ⟨[("k", ⟨[], 5⟩)]⟩ "k" 0 3).2.1 ⟨[], 5⟩ rfl (by decide),
   (claim_C5_map_expire_semantics ⟨[("k", ⟨[], 5⟩)]⟩ "k" 9 3).2.2 ⟨[], 5⟩ rfl (by decide),
   (claim_C5_map_expire_semantics ⟨[]⟩ "j" 0 3).1 rfl⟩

/-- C8: `Key(functionName, args)` is exactly the function name followed by
the `%v` rendering of each argument in order with no separators; it is a
pure function (hence deterministic in `(name, args)`), and argument order
matters: `Key("Add", [1, 2])` is `"Add12"` while `Key("Add", [2, 1])` is
different. -/
theorem claim_C8_key_derivation :
    (∀ (fName : String) (args : List RVal),
      CacheKeyImpl.Key fName args =
        fName ++ concatStrs (args.map (fun arg => goFmt arg.val))) ∧
    CacheKeyImpl.Key "Add" [⟨GoTy.tInt, GoDyn.dNum 1⟩, ⟨GoTy.tInt, GoDyn.dNum 2⟩] = "Add12" ∧
    CacheKeyImpl.Key "Add" [⟨GoTy.tInt, GoDyn.dNum 1⟩, ⟨GoTy.tInt, GoDyn.dNum 2⟩] ≠
      CacheKeyImpl.Key "Add" [⟨GoTy.tInt, GoDyn.dNum 2⟩, ⟨GoTy.tInt, GoDyn.dNum 1⟩] :=
  ⟨fun fName args => foldl_append_concatStrs (fun arg => goFmt arg.val) fName args,
   rfl, by decide⟩

/-- C4: `RedisCacheImpl.Get` maps the store's "key not found" reply to
`found=false` with nil error, propagates any other store-level error with
`found=false`, and on a retrieved value returns `Deserialize`'s output with
`found=true`, or the deserialization error with `found=false` when decoding
fails with an error. -/
theorem claim_C4_redis_get_error_mapping (ft : FnTy) :
    (RedisCacheImpl.Get RedisReply.nilReply ft = GoOut.ret (none, false, none)) ∧
    (∀ e, RedisCacheImpl.Get (RedisReply.fail e) ft = GoOut.ret (none, false, some e)) ∧
    (∀ s rv er, RedisCacheImpl.Deserialize s ft = GoOut.ret (rv, some er) →
      RedisCacheImpl.Get (RedisReply.ok s) ft = GoOut.ret (none, false, some er)) ∧
    (∀ s rv, RedisCacheImpl.Deserialize s ft = GoOut.ret (rv, none) →
      RedisCacheImpl.Get (RedisReply.ok s) ft = GoOut.ret (rv, true, none)) := by
  refine ⟨rfl, fun e => rfl, ?_, ?_⟩
  · intro s rv er h
    simp [RedisCacheImpl.Get, h]
  · intro s rv h
    simp [RedisCacheImpl.Get, h]

/-- Witness for C4 at concrete inputs: a decodable reply is returned with
`found=true`, a malformed reply's decoding error is propagated with
`found=false`. -/
theorem claim_C4_redis_get_error_mapping_witness :
    RedisCacheImpl.Get (RedisReply.ok "[]") ⟨[]⟩ = GoOut.ret (some [], true, none) ∧
    RedisCacheImpl.Get (RedisReply.ok "x") ⟨[]⟩ =
      GoOut.ret (none, false, some GoErr.jsonError) :=
  ⟨(claim_C4_redis_get_error_mapping ⟨[]⟩).2.2.2 "[]" (some []) rfl,
   (claim_C4_redis_get_error_mapping ⟨[]⟩).2.2.1 "x" none GoErr.jsonError rfl⟩

theorem deserElems_nil (outs : List GoTy) : deserElems outs [] = GoOut.ret [] := by
  cases outs with
  | nil => rfl
  | cons t ts => rfl

theorem deserElems_overflow (results : List GoDyn) (outs : List GoTy)
    (h : outs.length < results.length) :
    ∃ m, deserElems outs results = GoOut.panicked m := by
  induction results generalizing outs with
  | nil => exact absurd h (by simp)
  | cons d ds ih =>
    cases outs with
    | nil => exact ⟨reflectOutRangePanic, rfl⟩
    | cons t ts =>
      have h2 : ts.length < ds.length := by
        simpa using h
      rcases ih ts h2 with ⟨m, hm⟩
      cases hrs : reflectSet t d with
      | panicked m2 => exact ⟨m2, by simp [deserElems, hrs]⟩
      | ret v => exact ⟨m, by simp [deserElems, hrs, hm]⟩

/-- C6 counterexample: `Deserialize` does not fail on every arity mismatch.
The well-formed text `"[]"` decodes to zero values against a one-output
signature yet returns a nil error, and the text `"[1,2]"` against a
one-output signature panics instead of returning an error. -/
theorem claim_C6_counterexample_no_arity_error :
    RedisCacheImpl.Deserialize "[]" ⟨[GoTy.tInt]⟩ = GoOut.ret (some [], none) ∧
    RedisCacheImpl.Deserialize "[1,2]" ⟨[GoTy.tFloat64]⟩ =
      GoOut.panicked reflectOutRangePanic :=
  ⟨rfl, rfl⟩

/-- C6 as amended: `Deserialize` returns an error whenever the text is
malformed (the JSON decode fails), but it performs no arity check — a
decoded sequence shorter than the signature's output list does not by
itself cause an error (an empty array decodes successfully against any
signature), and a longer one panics instead of returning an error. -/
theorem claim_C6_amended_deserialize_failures (s : String) (ft : FnTy) :
    (jsonUnmarshalArr s = none →
      RedisCacheImpl.Deserialize s ft = GoOut.ret (none, some GoErr.jsonError)) ∧
    (RedisCacheImpl.Deserialize "[]" ft = GoOut.ret (some [], none)) ∧
    (∀ results, jsonUnmarshalArr s = some results → ft.outs.length < results.length →
      ∃ m, RedisCacheImpl.Deserialize s ft = GoOut.panicked m) := by
  refine ⟨?_, ?_, ?_⟩
  · intro h
    simp [RedisCacheImpl.Deserialize, h]
  · have h0 : jsonUnmarshalArr "[]" = some [] := rfl
    simp [RedisCacheImpl.Deserialize, h0, deserElems_nil]
  · intro results h hlen
    rcases deserElems_overflow results ft.outs hlen with ⟨m, hm⟩
    exact ⟨m, by simp [RedisCacheImpl.Deserialize, h, hm]⟩

/-- Witness for the amended C6 at concrete inputs: malformed text yields the
decode error, an over-long decoded sequence yields a panic. -/
theorem claim_C6_amended_deserialize_failures_witness :
    RedisCacheImpl.Deserialize "x" ⟨[]⟩ = GoOut.ret (none, some GoErr.jsonError) ∧
    (∃ m, RedisCacheImpl.Deserialize "[1,2]" ⟨[]⟩ = GoOut.panicked m) :=
  ⟨(claim_C6_amended_deserialize_failures "x" ⟨[]⟩).1 rfl,
   (claim_C6_amended_deserialize_failures "[1,2]" ⟨[]⟩).2.2
     [GoDyn.dNum 1, GoDyn.dNum 2] rfl (by decide)⟩

/-- C7 counterexample: on the Remote Store Backend, `Set` with `ttl = 0`
stores the key with no expiry, so the entry is still retrieved with
`found=true` a million ticks later — `ttl <= 0` does not mean "delete now"
for this operation. -/
theorem claim_C7_counterexample_redis_set_forever :
    RedisCacheImpl.GetS
        (RedisCacheImpl.Set ⟨[]⟩ "k" [⟨GoTy.tMapSI, GoDyn.dMap []⟩] 0 0).1
        "k" 1000000 ⟨[GoTy.tMapSI]⟩ =
      GoOut.ret (some [⟨GoTy.tMapSI, GoDyn.dMap []⟩], true, none) :=
  rfl

/-- C7 as amended: `ttl <= 0` behaves as "delete now" for the Local Map
Backend's `Set` (the entry is immediately stale: any later `Get` misses) and
`Expire` (the key is removed), and for the Remote Store Backend's `Expire`
(the key is removed); but the Remote Store Backend's `Set` with `ttl <= 0`
(other than the client's KeepTTL sentinel -1) stores the key with NO expiry,
so the serialized value remains retrievable at every later time. -/
theorem claim_C7_amended_ttl_semantics (c : MapCacheImpl) (st : RedisState)
    (k : String) (v : List RVal) (ttl now t2 : Int) :
    (ttl ≤ 0 → now ≤ t2 →
      (((c.Set k v ttl now).1).Get k t2).2 = (none, false, none)) ∧
    (ttl ≤ 0 → assocFind ((c.Expire k ttl now).1).cache k = none) ∧
    (ttl ≤ 0 → assocFind ((RedisCacheImpl.Expire st k ttl now).1).store k = none) ∧
    (ttl ≤ 0 → ttl ≠ redisKeepTTL →
      redisLookup (RedisCacheImpl.Set st k v ttl now).1 k t2 =
        some (jsonMarshalReflectValues v)) := by
  refine ⟨?_, ?_, ?_, ?_⟩
  · intro httl hle
    have hfind : assocFind (assocInsert c.cache k ⟨v, now + ttl⟩) k =
        some ⟨v, now + ttl⟩ := assocFind_insert_self c.cache k ⟨v, now + ttl⟩
    have hnlt : ¬ t2 < now + ttl := by omega
    simp [MapCacheImpl.Set, MapCacheImpl.Get, hfind, hnlt]
  · intro httl
    cases h : assocFind c.cache k with
    | none =>
      have hE : c.Expire k ttl now = (c, none) := by
        simp [MapCacheImpl.Expire, h]
      rw [hE]
      exact h
    | some e =>
      have hE : c.Expire k ttl now = (⟨assocErase c.cache k⟩, none) := by
        simp [MapCacheImpl.Expire, h, httl]
      rw [hE]
      exact assocFind_erase_self c.cache k
  · intro httl
    cases h : assocFind st.store k with
    | none =>
      have hE : RedisCacheImpl.Expire st k ttl now = (st, none) := by
        simp [RedisCacheImpl.Expire, redisClientExpire, h]
      rw [hE]
      exact h
    | some e =>
      have hE : RedisCacheImpl.Expire st k ttl now = (⟨assocErase st.store k⟩, none) := by
        simp [RedisCacheImpl.Expire, redisClientExpire, h, httl]
      rw [hE]
      exact assocFind_erase_self st.store k
  · intro httl hne
    have hnpos : ¬ 0 < ttl := not_lt.mpr httl
    have hS : (RedisCacheImpl.Set st k v ttl now).1 =
        ⟨assocInsert st.store k ⟨jsonMarshalReflectValues v, none⟩⟩ := by
      simp [RedisCacheImpl.Set, redisClientSet, hnpos, hne, RedisCacheImpl.Serialize]
    rw [hS]
    simp [redisLookup, assocFind_insert_self]

/-- Witness for the amended C7 at concrete inputs. -/
theorem claim_C7_amended_ttl_semantics_witness :
    (MapCacheImpl.Get (MapCacheImpl.Set ⟨[]⟩ "k" [] 0 0).1 "k" 5).2 = (none, false, none) ∧
    assocFind ((MapCacheImpl.Expire ⟨[("k", ⟨[], 9⟩)]⟩ "k" (-1) 0).1).cache "k" = none ∧
    assocFind ((RedisCacheImpl.Expire ⟨[("k", ⟨"x", none⟩)]⟩ "k" 0 0).1).store "k" = none ∧
    redisLookup (RedisCacheImpl.Set ⟨[]⟩ "k" [] 0 0).1 "k" 1000 =
      some (jsonMarshalReflectValues []) :=
  ⟨(claim_C7_amended_ttl_semantics ⟨[]⟩ ⟨[]⟩ "k" [] 0 0 5).1 (by decide) (by decide),
   (claim_C7_amended_ttl_semantics ⟨[("k", ⟨[], 9⟩)]⟩ ⟨[]⟩ "k" [] (-1) 0 0).2.1 (by decide),
   (claim_C7_amended_ttl_semantics ⟨[]⟩ ⟨[("k", ⟨"x", none⟩)]⟩ "k" [] 0 0 0).2.2.1 (by decide),
   (claim_C7_amended_ttl_semantics ⟨[]⟩ ⟨[]⟩ "k" [] 0 0 1000).2.2.2 (by decide) (by decide)⟩

/-- C1 evaluated at the failing input: on the Local Map Backend a `Set`
followed by an immediate `Get` does return the stored values, but on the
Remote Store Backend the same sequence with values `[int 42]` and a
matching `func() int` signature panics instead of returning them —
`Serialize` marshals the `reflect.Value` wrappers (structs with no exported
fields) to empty JSON objects, so `Get` tries to assign a decoded
`map[string]interface\x7b\x7d` into the `int` result slot. -/
theorem claim_C1_set_then_get_evaluation :
    (MapCacheImpl.Get (MapCacheImpl.Set ⟨[]⟩ "k" [⟨GoTy.tInt, GoDyn.dNum 42⟩] 10 0).1
        "k" 0).2 =
      (some [⟨GoTy.tInt, GoDyn.dNum 42⟩], true, none) ∧
    RedisCacheImpl.GetS
        (RedisCacheImpl.Set ⟨[]⟩ "k" [⟨GoTy.tInt, GoDyn.dNum 42⟩] 10 0).1
        "k" 0 ⟨[GoTy.tInt]⟩ =
      GoOut.panicked reflectSetTypePanic :=
  ⟨rfl, rfl⟩

/-- C3 evaluated at the failing input: serializing `[int 5]` produces
`"[\x7b\x7d]"` — the data is lost because `json.Marshal` sees only a struct
with no exported fields — and deserializing that text back with the
matching one-int signature panics rather than reconstructing the value. -/
theorem claim_C3_roundtrip_evaluation :
    RedisCacheImpl.Serialize [⟨GoTy.tInt, GoDyn.dNum 5⟩] = ("[\x7b\x7d]", none) ∧
    RedisCacheImpl.Deserialize
        (RedisCacheImpl.Serialize [⟨GoTy.tInt, GoDyn.dNum 5⟩]).1 ⟨[GoTy.tInt]⟩ =
      GoOut.panicked reflectSetTypePanic :=
  ⟨rfl, rfl⟩

/-- Witness for C8 at concrete inputs, exercising the concatenation form. -/
theorem claim_C8_key_derivation_witness :
    CacheKeyImpl.Key "Add" [⟨GoTy.tInt, GoDyn.dNum 1⟩, ⟨GoTy.tInt, GoDyn.dNum 2⟩] =
      "Add" ++ concatStrs ["1", "2"] :=
  claim_C8_key_derivation.1 "Add" [⟨GoTy.tInt, GoDyn.dNum 1⟩, ⟨GoTy.tInt, GoDyn.dNum 2⟩]
